import Mathlib

/-!
Verification development for the go-peggy PEG virtual machine.

The definitions below are a shallow embedding of the Go sources:
bytes are `Nat` values below 256, `uint64` values are `Nat` values below
2^64 (with explicit overflow checks mirrored from the source), `int64`
values are `Int`, Go slices are Lean lists, and the control stack is a
list whose head is the top of the stack.  Fallible operations return
`Option` / explicit result types, and a Go `panic` is modelled by a
dedicated constructor of the result type.
-/

namespace ByteSet

/-- Range of consecutive bytes, from `byteset` package (`part_012`). -/
structure Range where
  lo : Nat
  hi : Nat
deriving DecidableEq, Repr

/-- Insertion of a range into a list sorted by `lo`; `sortByLo` models
`sort.Sort(rangeSlice(b))`, whose comparison is `x[i].Lo < x[j].Lo`. -/
def insertByLo (r : Range) : List Range → List Range
  | [] => [r]
  | x :: xs => if r.lo < x.lo then r :: x :: xs else x :: insertByLo r xs

/-- Sorting by `lo`, modelling `sort.Sort(rangeSlice(b))` in `coalesceRanges`. -/
def sortByLo (l : List Range) : List Range := l.foldr insertByLo []

/-- One iteration of the merge loop of `coalesceRanges`.  The state is the
output list `c`, the `lastHi` variable and the `have` flag (`hv` here). -/
def coalesceStep (st : List Range × Nat × Bool) (r : Range) : List Range × Nat × Bool :=
  let c := st.1
  let lastHi := st.2.1
  let hv := st.2.2
  if hv ∧ lastHi ≥ r.hi then
    -- Case 4 in the source comment: fully overlapping, discard
    (c, lastHi, hv)
  else if hv ∧ lastHi ≥ r.lo then
    -- Cases 2 & 3 in the source comment: `c[len(c)-1].Hi = r.Hi`
    (c.dropLast ++ [⟨(c.getLastD ⟨0, 0⟩).lo, r.hi⟩], r.hi, hv)
  else
    -- Case 1: keep as-is
    (c ++ [r], r.hi, true)

/-- Translation of `coalesceRanges` from `part_012`: drop `Lo > Hi`, sort by
`Lo`, bail out below two entries, then run the merge loop. -/
def coalesceRanges (a : List Range) : List Range :=
  let b := a.filter (fun r => r.hi ≥ r.lo)
  let b := sortByLo b
  if b.length < 2 then b
  else (b.foldl coalesceStep ([], 0, false)).1

/-- Translation of `makeRange`: the stored list of an `mRange` matcher. -/
def makeRange (rs : List Range) : List Range := coalesceRanges rs

/-- Check of the claim's normalisation property for consecutive stored
entries: no two stored ranges are overlapping or adjacent, i.e. every
consecutive pair satisfies `previous.hi + 1 < next.lo`. -/
def separated : List Range → Bool
  | [] => true
  | [_] => true
  | a :: b :: rest => a.hi + 1 < b.lo && separated (b :: rest)

/-- Matcher variants needed by the execution engine.  `exactly` models
`byteset.Exactly`, `rangesM` the `mRange` matcher, `allSet` / `noneSet` the
`All` / `None` singletons. -/
inductive Matcher where
  | noneSet
  | allSet
  | exactly (b : Nat)
  | rangesM (rs : List Range)
deriving DecidableEq, Repr

/-- Membership test of `(*mRange).Match`: `sort.Search` returns the least
index whose range has `Hi ≥ b` (the predicate is monotone on a normalised
list, so the binary search agrees with the first index satisfying it). -/
def rangeMatch (rs : List Range) (b : Nat) : Bool :=
  let i := rs.findIdx (fun r => r.hi ≥ b)
  if h : i < rs.length then
    let r := rs.get ⟨i, h⟩
    r.lo ≤ b ∧ b ≤ r.hi
  else false

/-- Byte membership for each matcher variant. -/
def Matcher.bmatch : Matcher → Nat → Bool
  | .noneSet, _ => false
  | .allSet, _ => true
  | .exactly b, c => b = c
  | .rangesM rs, c => rangeMatch rs c

end ByteSet

namespace Peggy

/-- The i-th little-endian byte of a 64-bit word, as in `raw[i] = byte(v >> 8i)`. -/
def byteAt (v i : Nat) : Nat := v / 256 ^ i % 256

/-- Immediate slot types from `opcode.go` (`ImmType`). -/
inductive ImmType where
  | noneT
  | uint
  | sint
  | byteT
  | runeT
  | count
  | codeOffset
  | literalIdx
  | matcherIdx
  | captureIdx
deriving DecidableEq, Repr

/-- The `immSigned` map of `data.go`: only `ImmSint` and `ImmCodeOffset`. -/
def ImmType.signed : ImmType → Bool
  | .sint => true
  | .codeOffset => true
  | _ => false

/-- Metadata of a single immediate slot (`ImmMeta` in `opcode.go`). -/
structure ImmMeta where
  type : ImmType
  required : Bool
  packedDefault : Nat
deriving DecidableEq, Repr

/-- Unpacked default of a slot: the packed byte, sign-extended when the
slot's type is signed and the byte's top bit is set (`ImmMeta.Default`). -/
def ImmMeta.default (m : ImmMeta) : Nat :=
  let b := m.packedDefault
  -- (b & 0x80) == 0x80, written as a parity test of bit 7
  if m.type.signed ∧ b / 128 % 2 = 1 then b ||| 0xFFFFFFFFFFFFFF00 else b

/-- Whether a value occupies its slot in the encoded form (`ImmMeta.IsPresent`). -/
def ImmMeta.isPresent (m : ImmMeta) (v : Nat) : Bool :=
  if m.type = .noneT then false
  else if m.required then true
  else m.default ≠ v

/-- Decode errors of the instruction codec (`error.go`). -/
inductive DecErr where
  | unknownOpcode
  | badImmediateLen
  | missingImmediate
  | unexpectedImmediate
  | unexpectedEOF
deriving DecidableEq, Repr

/-- Decoding of one immediate from its encoded bytes (`ImmMeta.Decode`).
The returned pair is Go's `(value, err)`: the source initialises `value`
with the unpacked default and then ORs each encoded byte into it. -/
def ImmMeta.decode (m : ImmMeta) (data : List Nat) : Nat × Option DecErr :=
  let value := m.default
  if data.length = 0 then
    (value, if m.type ≠ .noneT ∧ m.required then some .missingImmediate else none)
  else if m.type = .noneT then
    (value, some .unexpectedImmediate)
  else
    let value := (data.enum).foldl (fun acc ib => acc ||| ib.2 <<< (ib.1 * 8)) value
    let b := data.getLastD 0
    let value :=
      if m.type.signed ∧ b / 128 % 2 = 1 then
        (List.range 8).foldl
          (fun acc i => if data.length ≤ i then acc ||| 0xff <<< (i * 8) else acc) value
      else value
    (value, none)

/-- Encoding of one immediate (`ImmMeta.Encode`): the nested cascade picks
the number of little-endian bytes kept from `raw`, where `x` is the fill
byte and `f` the top-bit test used for signed slots. -/
def ImmMeta.encode (m : ImmMeta) (v : Nat) : List Nat :=
  if m.isPresent v = false then []
  else
    let neg : Bool := v / 2 ^ 63 % 2 = 1
    let sgn : Bool := m.type.signed
    let x : Nat := if sgn ∧ neg then 0xff else 0x00
    let f : Nat → Bool := fun b =>
      if sgn then decide (b / 128 % 2 = (if neg then 1 else 0)) else true
    let n : Nat :=
      if byteAt v 7 = x ∧ byteAt v 6 = x ∧ byteAt v 5 = x ∧ byteAt v 4 = x ∧ f (byteAt v 3) then
        if byteAt v 3 = x ∧ byteAt v 2 = x ∧ f (byteAt v 1) then
          if byteAt v 1 = x ∧ f (byteAt v 0) then 1 else 2
        else 4
      else 8
    (List.range n).map (byteAt v)

/-- Metadata of one opcode (`OpMeta` in `opcode.go`). -/
structure OpMeta where
  code : Nat
  illegal : Bool
  imm0 : ImmMeta
  imm1 : ImmMeta
  imm2 : ImmMeta
  name : String
deriving DecidableEq, Repr

/-- The helper `none()` of `data.go`. -/
def noneImm : ImmMeta := ⟨.noneT, false, 0⟩

/-- The helper `required(t)` of `data.go`. -/
def requiredImm (t : ImmType) : ImmMeta := ⟨t, true, 0⟩

/-- The helper `optional(t, b)` of `data.go`. -/
def optionalImm (t : ImmType) (b : Nat) : ImmMeta := ⟨t, false, b⟩

/-- The `opMeta` table of `data.go`, in opcode order. -/
def opMetaTable : List OpMeta :=
  [ ⟨0x00, false, noneImm, noneImm, noneImm, "NOP"⟩,
    ⟨0x01, false, requiredImm .codeOffset, noneImm, noneImm, "CHOICE"⟩,
    ⟨0x02, false, requiredImm .codeOffset, noneImm, noneImm, "COMMIT"⟩,
    ⟨0x03, false, noneImm, noneImm, noneImm, "FAIL"⟩,
    ⟨0x04, false, optionalImm .count 1, noneImm, noneImm, "ANYB"⟩,
    ⟨0x05, false, requiredImm .byteT, optionalImm .count 1, noneImm, "SAMEB"⟩,
    ⟨0x06, false, requiredImm .literalIdx, noneImm, noneImm, "LITB"⟩,
    ⟨0x07, false, requiredImm .matcherIdx, optionalImm .count 1, noneImm, "MATCHB"⟩,
    ⟨0x08, false, requiredImm .codeOffset, noneImm, noneImm, "JMP"⟩,
    ⟨0x0a, false, requiredImm .codeOffset, noneImm, noneImm, "CALL"⟩,
    ⟨0x0b, false, noneImm, noneImm, noneImm, "RET"⟩,
    ⟨0x0c, false, requiredImm .codeOffset, optionalImm .count 1, noneImm, "TANYB"⟩,
    ⟨0x0d, false, requiredImm .codeOffset, requiredImm .byteT, optionalImm .count 1, "TSAMEB"⟩,
    ⟨0x0e, false, requiredImm .codeOffset, requiredImm .literalIdx, noneImm, "TLITB"⟩,
    ⟨0x0f, false, requiredImm .codeOffset, requiredImm .matcherIdx, optionalImm .count 1, "TMATCHB"⟩,
    ⟨0x10, false, requiredImm .codeOffset, noneImm, noneImm, "PCOMMIT"⟩,
    ⟨0x11, false, requiredImm .codeOffset, noneImm, noneImm, "BCOMMIT"⟩,
    ⟨0x12, false, requiredImm .matcherIdx, noneImm, noneImm, "SPANB"⟩,
    ⟨0x13, false, noneImm, noneImm, noneImm, "FAIL2X"⟩,
    ⟨0x14, false, requiredImm .count, noneImm, noneImm, "RWNDB"⟩,
    ⟨0x15, false, requiredImm .captureIdx, requiredImm .count, noneImm, "FCAP"⟩,
    ⟨0x16, false, requiredImm .captureIdx, noneImm, noneImm, "BCAP"⟩,
    ⟨0x17, false, requiredImm .captureIdx, noneImm, noneImm, "ECAP"⟩,
    ⟨0x3e, false, noneImm, noneImm, noneImm, "GIVEUP"⟩,
    ⟨0x3f, false, noneImm, noneImm, noneImm, "END"⟩ ]

/-- Lookup of `OpCode.Meta()`: the binary search over the sorted table is
equivalent to finding the unique entry with the given code; a missing code
yields the synthesised illegal metadata. -/
def opCodeMeta (c : Nat) : OpMeta :=
  match opMetaTable.find? (fun m => m.code = c) with
  | some m => m
  | none => ⟨c, true, optionalImm .uint 0, optionalImm .uint 0, optionalImm .uint 0, "ILLEGAL"⟩

/-- The `ImmLengthDecode` helper of `util.go`. -/
def immLengthDecode (b : Nat) : Option Nat :=
  if b = 0 then some 0
  else if b = 1 then some 1
  else if b = 2 then some 2
  else if b = 3 then some 4
  else if b = 4 then some 8
  else none

/-- The `ImmLengthEncode` helper of `util.go` (total on `{0,1,2,4,8}`; the
source panics elsewhere, which no caller reaches). -/
def immLengthEncode (n : Nat) : Nat :=
  if n = 0 then 0
  else if n = 1 then 1
  else if n = 2 then 2
  else if n = 4 then 3
  else 4

/-- The decoded form of a single instruction (`Op` in `part_004`, without
the redundant `Meta` cache pointer). -/
structure Op where
  xp : Nat
  imm0 : Nat
  imm1 : Nat
  imm2 : Nat
  code : Nat
  len : Nat
deriving DecidableEq, Repr

/-- Result of `Op.Decode`: end of stream, a `DisassembleError` (kind plus
the offending XP), or a decoded instruction. -/
inductive DecodeResult where
  | eof
  | fail (e : DecErr) (xp : Nat)
  | ok (op : Op)
deriving DecidableEq, Repr

/-- Body of `Op.Decode` after the header split: `hdr` is the header length,
`a`–`d` the opcode and the three width codes. -/
def opDecodeWith (stream : List Nat) (xp hdr a b c d : Nat) : DecodeResult :=
  match immLengthDecode b, immLengthDecode c, immLengthDecode d with
  | some len0, some len1, some len2 =>
    let i := xp + hdr
    let j := i + len0
    let k := j + len1
    let l := k + len2
    let len := hdr + len0 + len1 + len2
    if l > stream.length then .fail .unexpectedEOF xp
    else
      let meta := opCodeMeta a
      let r0 := meta.imm0.decode ((stream.drop i).take len0)
      let r1 := meta.imm1.decode ((stream.drop j).take len1)
      let r2 := meta.imm2.decode ((stream.drop k).take len2)
      let op : Op := ⟨xp, r0.1, r1.1, r2.1, meta.code, len⟩
      if meta.illegal then .fail .unknownOpcode xp
      else match r0.2, r1.2, r2.2 with
        | some e0, _, _ => .fail e0 xp
        | none, some e1, _ => .fail e1 xp
        | none, none, some e2 => .fail e2 xp
        | none, none, none => .ok op
  | _, _, _ => .fail .badImmediateLen xp

/-- Translation of `Op.Decode` from `part_004`: header byte(s) are split
into opcode bits and width codes for the short (`0aaabbcc`) and the long
(`1aaaaaab bbccc ddd`) form. -/
def opDecode (stream : List Nat) (xp : Nat) : DecodeResult :=
  if xp ≥ stream.length then .eof
  else
    let byte0 := stream.getD xp 0
    let hasByte1 : Bool := xp + 1 < stream.length
    let byte1 := if hasByte1 then stream.getD (xp + 1) 0 else 0xaa
    if byte0 / 128 % 2 = 1 then
      if hasByte1 = false then .fail .unexpectedEOF xp
      else
        opDecodeWith stream xp 2
          ((byte0 &&& 0x7e) >>> 1)
          (((byte0 &&& 0x01) <<< 2) ||| ((byte1 &&& 0xc0) >>> 6))
          ((byte1 &&& 0x38) >>> 3)
          (byte1 &&& 0x07)
    else
      opDecodeWith stream xp 1
        ((byte0 &&& 0x70) >>> 4)
        ((byte0 &&& 0x0c) >>> 2)
        (byte0 &&& 0x03)
        0

/-- The `u2s` conversion of `util.go`: 2's-complement reinterpretation of a
64-bit word as a signed integer. -/
def u2s (v : Nat) : Int :=
  if v / 2 ^ 63 % 2 = 1 then -((2 ^ 64 : Int) - v) else (v : Int)

/-- The `s2u` conversion of `util.go`. -/
def s2u (v : Int) : Nat :=
  if v < 0 then 2 ^ 64 - v.natAbs else v.toNat

/-- The `addOffset` helper of `util.go`: `none` models the source's
`panic("code offset out of range")` on overflow in either direction. -/
def addOffset (xp : Nat) (s : Int) : Option Nat :=
  if s < 0 then
    if s.natAbs > xp then none else some (xp - s.natAbs)
  else
    if s.toNat > 2 ^ 64 - 1 - xp then none else some (xp + s.toNat)

/-- A capture assignment (`Assignment` in `part_006`). -/
structure Assignment where
  dp : Nat
  index : Nat
  isEnd : Bool
deriving DecidableEq, Repr

/-- A control-stack frame (`Frame` in `part_000`).  `ks` is the capture
stack snapshot stored by CHOICE (Go stores the slice value, i.e. exactly
the list of assignments present when the frame was pushed). -/
structure Frame where
  isChoice : Bool
  dp : Nat
  xp : Nat
  ks : List Assignment
deriving DecidableEq, Repr

/-- Capture metadata (`CaptureMeta` in `part_006`). -/
structure CaptureMeta where
  cname : String
  rep : Bool
deriving DecidableEq, Repr

/-- A bytecode label (`Label` in `part_005`). -/
structure Label where
  offset : Nat
  isPub : Bool
  lname : String
deriving DecidableEq, Repr

/-- A compiled program (`Program` in `part_003`; the name maps are derived
data and are not modelled). -/
structure Program where
  bytes : List Nat
  literals : List (List Nat)
  byteSets : List ByteSet.Matcher
  captures : List CaptureMeta
  labels : List Label
deriving DecidableEq, Repr

/-- Execution states (`ExecutionState` in `execution.go`). -/
inductive RState where
  | running
  | success
  | failure
  | error
deriving DecidableEq, Repr

/-- The context of a match in progress (`Execution`).  The head of `cs` is
the top of the control stack. -/
structure Execution where
  prog : Program
  input : List Nat
  dp : Nat
  xp : Nat
  ks : List Assignment
  cs : List Frame
  r : RState
deriving DecidableEq, Repr

/-- Kinds of runtime errors (`error.go`). -/
inductive RtKind where
  | emptyStack
  | callRetFrame
  | choiceFailFrame
  | indexRange
  | countRange
deriving DecidableEq, Repr

/-- A `RuntimeError`: kind, instruction XP, DP and the decoded `Op` (whose
metadata provides the mnemonic). -/
structure RuntimeError where
  err : RtKind
  xp : Nat
  dp : Nat
  op : Op
deriving DecidableEq, Repr

/-- Errors surfaced by `Execution.Step`. -/
inductive StepErr where
  | halted
  | dis (e : DecErr) (xp : Nat)
  | rt (e : RuntimeError)
deriving DecidableEq, Repr

/-- Outcome of one `Step`: a new state, a new state together with an error,
or a Go `panic` (from `addOffset`), which aborts the caller. -/
inductive StepOut where
  | ok (x : Execution)
  | err (x : Execution) (e : StepErr)
  | panicked (msg : String)
deriving DecidableEq, Repr

/-- The `availableBytes` helper (`uint64(len(x.I)) - x.DP`; the execution
invariant keeps `DP ≤ |input|`, so plain truncated subtraction agrees with
the Go unsigned subtraction). -/
def Execution.availableBytes (x : Execution) : Nat := x.input.length - x.dp

/-- The `matchN` helper of `execution.go`. -/
def Execution.matchN (x : Execution) (m : ByteSet.Matcher) (n : Nat) : Bool :=
  if x.availableBytes < n then false
  else (List.range n).all (fun i => m.bmatch (x.input.getD (x.dp + i) 0))

/-- The `matchLit` helper of `execution.go`; returns `(n, good)`. -/
def Execution.matchLit (x : Execution) (l : List Nat) : Nat × Bool :=
  let n := l.length
  if x.availableBytes < n then (0, false)
  else if (List.range n).all (fun i => x.input.getD (x.dp + i) 0 = l.getD i 0) then (n, true)
  else (0, false)

/-- The pop-until-choice loop inside `Execution.fail`. -/
def failCS : List Frame → Option (Frame × List Frame)
  | [] => none
  | fr :: rest => if fr.isChoice then some (fr, rest) else failCS rest

/-- The backtracking routine `Execution.fail` of `execution.go`: discard
call frames, restore the first choice frame, or give up with `Failure`. -/
def Execution.fail (x : Execution) : Execution :=
  match failCS x.cs with
  | none => { x with r := .failure, ks := [], cs := [] }
  | some (fr, rest) => { x with dp := fr.dp, xp := fr.xp, ks := fr.ks, cs := rest }

/-- The SPANB loop: advance DP over matching bytes. -/
def spanDP (m : ByteSet.Matcher) (input : List Nat) (dp : Nat) : Nat :=
  if h : dp < input.length ∧ m.bmatch (input.getD dp 0) then spanDP m input (dp + 1)
  else dp
termination_by input.length - dp
decreasing_by
  have := h.1
  omega

/-- Translation of `Execution.Step` from `execution.go`.  The decoded
instruction's length is added to XP before dispatch; `rterr` mirrors the
closure of the same name (set `R = Error`, clear KS, return a
`RuntimeError` carrying the op's XP, the current DP and the op). -/
def Execution.step (x : Execution) : StepOut :=
  if x.r ≠ .running then .err x .halted
  else
    match opDecode x.prog.bytes x.xp with
    | .eof => .ok { x with r := .success }
    | .fail e exp => .err { x with r := .error, ks := [] } (.dis e exp)
    | .ok op =>
      let x := { x with xp := x.xp + op.len }
      let rterr : Execution → RtKind → StepOut := fun x' k =>
        .err { x' with r := .error, ks := [] } (.rt ⟨k, op.xp, x'.dp, op⟩)
      match op.code with
      | 0x00 => .ok x
      | 0x01 =>
        match addOffset x.xp (u2s op.imm0) with
        | none => .panicked "code offset out of range"
        | some t => .ok { x with cs := ⟨true, x.dp, t, x.ks⟩ :: x.cs }
      | 0x02 =>
        match x.cs with
        | [] => rterr x .emptyStack
        | fr :: rest =>
          if fr.isChoice = false then rterr { x with cs := rest } .callRetFrame
          else
            match addOffset x.xp (u2s op.imm0) with
            | none => .panicked "code offset out of range"
            | some t => .ok { x with cs := rest, xp := t }
      | 0x03 => .ok x.fail
      | 0x04 =>
        if x.availableBytes ≥ op.imm0 then .ok { x with dp := x.dp + op.imm0 }
        else .ok x.fail
      | 0x05 =>
        if x.matchN (.exactly (op.imm0 % 256)) op.imm1 then .ok { x with dp := x.dp + op.imm1 }
        else .ok x.fail
      | 0x06 =>
        if op.imm0 ≥ x.prog.literals.length then rterr x .indexRange
        else
          let r := x.matchLit (x.prog.literals.getD op.imm0 [])
          if r.2 then .ok { x with dp := x.dp + r.1 } else .ok x.fail
      | 0x07 =>
        if op.imm0 ≥ x.prog.byteSets.length then rterr x .indexRange
        else if x.matchN (x.prog.byteSets.getD op.imm0 .noneSet) op.imm1 then
          .ok { x with dp := x.dp + op.imm1 }
        else .ok x.fail
      | 0x08 =>
        match addOffset x.xp (u2s op.imm0) with
        | none => .panicked "code offset out of range"
        | some t => .ok { x with xp := t }
      | 0x0a =>
        match addOffset x.xp (u2s op.imm0) with
        | none => .panicked "code offset out of range"
        | some t => .ok { x with cs := ⟨false, 0, x.xp, []⟩ :: x.cs, xp := t }
      | 0x0b =>
        match x.cs with
        | [] => rterr x .emptyStack
        | fr :: rest =>
          if fr.isChoice = false then rterr { x with cs := rest } .choiceFailFrame
          else .ok { x with cs := rest, xp := fr.xp }
      | 0x0c =>
        if x.availableBytes ≥ op.imm1 then .ok { x with dp := x.dp + op.imm1 }
        else
          match addOffset x.xp (u2s op.imm0) with
          | none => .panicked "code offset out of range"
          | some t => .ok { x with xp := t }
      | 0x0d =>
        if x.matchN (.exactly (op.imm1 % 256)) op.imm2 then .ok { x with dp := x.dp + op.imm2 }
        else
          match addOffset x.xp (u2s op.imm0) with
          | none => .panicked "code offset out of range"
          | some t => .ok { x with xp := t }
      | 0x0e =>
        if op.imm1 ≥ x.prog.literals.length then rterr x .indexRange
        else
          let r := x.matchLit (x.prog.literals.getD op.imm1 [])
          if r.2 then .ok { x with dp := x.dp + r.1 }
          else
            match addOffset x.xp (u2s op.imm0) with
            | none => .panicked "code offset out of range"
            | some t => .ok { x with xp := t }
      | 0x0f =>
        if op.imm1 ≥ x.prog.byteSets.length then rterr x .indexRange
        else if x.matchN (x.prog.byteSets.getD op.imm1 .noneSet) op.imm2 then
          .ok { x with dp := x.dp + op.imm2 }
        else
          match addOffset x.xp (u2s op.imm0) with
          | none => .panicked "code offset out of range"
          | some t => .ok { x with xp := t }
      | 0x10 =>
        match x.cs with
        | [] => rterr x .emptyStack
        | fr :: rest =>
          if fr.isChoice = false then rterr { x with cs := rest } .callRetFrame
          else
            match addOffset x.xp (u2s op.imm0) with
            | none => .panicked "code offset out of range"
            | some t => .ok { x with cs := ⟨fr.isChoice, x.dp, t, x.ks⟩ :: rest }
      | 0x11 =>
        match x.cs with
        | [] => rterr x .emptyStack
        | fr :: rest =>
          if fr.isChoice = false then rterr { x with cs := rest } .callRetFrame
          else
            match addOffset x.xp (u2s op.imm0) with
            | none => .panicked "code offset out of range"
            | some t => .ok { x with dp := fr.dp, ks := fr.ks, xp := t, cs := rest }
      | 0x12 =>
        if op.imm0 ≥ x.prog.byteSets.length then rterr x .indexRange
        else .ok { x with dp := spanDP (x.prog.byteSets.getD op.imm0 .noneSet) x.input x.dp }
      | 0x13 =>
        match x.cs with
        | [] => rterr x .emptyStack
        | fr :: rest =>
          if fr.isChoice = false then rterr { x with cs := rest } .callRetFrame
          else .ok (Execution.fail { x with cs := rest })
      | 0x14 =>
        if op.imm0 > x.dp then rterr x .countRange
        else .ok { x with dp := x.dp - op.imm0 }
      | 0x15 =>
        if op.imm0 ≥ x.prog.captures.length then rterr x .indexRange
        else if op.imm1 > x.dp then rterr x .countRange
        else .ok { x with ks := x.ks ++ [⟨x.dp - op.imm1, op.imm0, false⟩, ⟨x.dp, op.imm0, true⟩] }
      | 0x16 =>
        if op.imm0 ≥ x.prog.captures.length then rterr x .indexRange
        else .ok { x with ks := x.ks ++ [⟨x.dp, op.imm0, false⟩] }
      | 0x17 =>
        if op.imm0 ≥ x.prog.captures.length then rterr x .indexRange
        else .ok { x with ks := x.ks ++ [⟨x.dp, op.imm0, true⟩] }
      | 0x3e => .ok { x with r := .failure, ks := [] }
      | 0x3f => .ok { x with r := .success }
      | _ => .ok x

/-- Outcome of `Execution.Run`: a terminal state, an error, a panic, or
fuel exhaustion (`Run` itself loops without bound). -/
inductive RunOut where
  | done (x : Execution)
  | errOut (x : Execution) (e : StepErr)
  | panicOut (msg : String)
  | fuelOut
deriving DecidableEq, Repr

/-- Fuel-bounded translation of `Execution.Run`: step while `R = Running`.
Written with a bare `Nat.rec` so that concrete runs reduce inside the
kernel without the `brecOn` overhead of equation compilation. -/
def runF (fuel : Nat) (x : Execution) : RunOut :=
  Nat.rec (motive := fun _ => Execution → RunOut)
    (fun y => if y.r ≠ .running then .done y else .fuelOut)
    (fun _ ih y =>
      if y.r ≠ .running then .done y
      else
        match y.step with
        | .ok y' => ih y'
        | .err y' e => .errOut y' e
        | .panicked m => .panicOut m)
    fuel x

/-- Translation of `Program.Exec`: a fresh execution over the input. -/
def Program.exec (p : Program) (input : List Nat) : Execution :=
  ⟨p, input, 0, 0, [], [], .running⟩

/-- A start/end pair of a single capture event (`CapturePair`). -/
structure CapturePair where
  s : Nat
  e : Nat
deriving DecidableEq, Repr

/-- All capture events for a single index (`Capture`). -/
structure Capture where
  exs : Bool
  solo : CapturePair
  multi : List CapturePair
deriving DecidableEq, Repr

/-- The zero value of `Capture` produced by `make([]Capture, n)`. -/
def emptyCapture : Capture := ⟨false, ⟨0, 0⟩, []⟩

/-- A match result (`Result`). -/
structure Result where
  success : Bool
  captures : List Capture
deriving DecidableEq, Repr

/-- One iteration of the capture-harvesting loop in `Program.Match`;
`none` models the source's `panic("capture out of range")`. -/
def harvestStep (caps : List Capture) (pending : List Nat) (a : Assignment) :
    Option (List Capture × List Nat) :=
  if a.index ≥ caps.length then none
  else if a.isEnd then
    let pair : CapturePair := ⟨pending.getD a.index 0, a.dp⟩
    let c := caps.getD a.index emptyCapture
    some (caps.set a.index ⟨true, pair, c.multi ++ [pair]⟩, pending.set a.index 0)
  else
    some (caps, pending.set a.index a.dp)

/-- The harvesting loop folded over KS in insertion order. -/
def harvestAcc (st : List Capture × List Nat) (ks : List Assignment) :
    Option (List Capture × List Nat) :=
  ks.foldlM (fun s a => harvestStep s.1 s.2 a) st

/-- Initial harvesting state: `make([]Capture, n)` and `make([]uint64, n)`
are zero-initialised, so every pending start position begins at 0. -/
def harvestInit (n : Nat) : List Capture × List Nat :=
  (List.replicate n emptyCapture, List.replicate n 0)

/-- Fuel-bounded translation of `Program.Match`: run to a terminal state,
then harvest the capture stack; `none` models a panic (runtime error or
capture index out of range) or fuel exhaustion. -/
def Program.matchF (fuel : Nat) (p : Program) (input : List Nat) : Option Result :=
  match runF fuel (p.exec input) with
  | .done x =>
    match harvestAcc (harvestInit p.captures.length) x.ks with
    | some st => some ⟨x.r = .success, st.1⟩
    | none => none
  | _ => none

/-- Modelled from the spec: the instruction-level encoder `OpMeta.Encode`
used by `assembler.go` is not among the provided sources (only its callers
are).  Following §4.2 of the specification: each slot is encoded with
`ImmMeta.Encode`; the short one-byte header `[0aaa|bbcc]` is used iff the
opcode is in 0..7, imm2 is absent and imm0/imm1 each fit in at most 4
bytes, otherwise the long two-byte header `[1aaaaaab][bbcccddd]` is used;
width codes come from `ImmLengthEncode` and immediates follow in order. -/
def opEncode (meta : OpMeta) (i0 i1 i2 : Nat) : List Nat :=
  let e0 := meta.imm0.encode i0
  let e1 := meta.imm1.encode i1
  let e2 := meta.imm2.encode i2
  let lc0 := immLengthEncode e0.length
  let lc1 := immLengthEncode e1.length
  let lc2 := immLengthEncode e2.length
  if meta.code ≤ 7 ∧ e2.length = 0 ∧ e0.length ≤ 4 ∧ e1.length ≤ 4 then
    ((meta.code <<< 4) ||| (lc0 <<< 2) ||| lc1) :: (e0 ++ e1)
  else
    (0x80 ||| (meta.code <<< 1) ||| (lc0 >>> 2)) ::
      ((((lc0 &&& 0x03) <<< 6) ||| (lc1 <<< 3) ||| lc2) :: (e0 ++ e1 ++ e2))

/-- Immediate argument to `Assembler.EmitOp` (the `interface{}` values:
absent, a signed integer, an unsigned integer, or a label reference given
as a store id). -/
inductive AsmImm where
  | omitted
  | sintArg (i : Int)
  | uintArg (n : Nat)
  | labelRef (id : Nat)
deriving DecidableEq, Repr

/-- An assembler work item (`AsmItem` in `assembler.go`).  Go's `^uint(0)`
index sentinel is modelled as `none`; `blocking` and `fixBlockedBy` hold
store ids in place of Go pointers. -/
structure AsmItem where
  index : Option Nat
  isOp : Bool
  knownXP : Bool
  xp : Nat
  aname : String
  isPub : Bool
  seen : Bool
  meta : OpMeta
  imm0 : Nat
  imm1 : Nat
  imm2 : Nat
  fixed : Bool
  bytes : List Nat
  maxLength : Nat
  fixup : Option Nat
  blocking : List Nat
  fixBlockedBy : Option Nat
deriving DecidableEq, Repr

/-- The zero-ish item: also stands in for the `.$bogus$` sentinel used by
`distance` past the end of the list (fixed, empty bytes). -/
def defaultAsmItem : AsmItem :=
  ⟨none, false, false, 0, "", false, false, opCodeMeta 0, 0, 0, 0, true, [], 0, none, [], none⟩

/-- The assembler state (`Assembler`): the object store models the Go heap,
`list` is `Assembler.List` as store ids, `queue` is the work queue. -/
structure AsmState where
  store : List AsmItem
  list : List Nat
  labelsByName : List (String × Nat)
  queue : List Nat
  literals : List (List Nat)
  captures : List CaptureMeta
deriving DecidableEq, Repr

/-- The `NewAssembler` state. -/
def AsmState.empty : AsmState := ⟨[], [], [], [], [], []⟩

/-- Dereference a store id. -/
def AsmState.get (st : AsmState) (id : Nat) : AsmItem := st.store.getD id defaultAsmItem

/-- Write through a store id. -/
def AsmState.put (st : AsmState) (id : Nat) (item : AsmItem) : AsmState :=
  { st with store := st.store.set id item }

/-- The `link` helper: assign the next list index and append to the list. -/
def AsmState.link (st : AsmState) (id : Nat) : AsmState :=
  let st := st.put id { st.get id with index := some st.list.length }
  { st with list := st.list ++ [id] }

/-- The `GrabLabel` method: reuse an existing label object or allocate a
fresh one (unlinked, `Fixed = true`, public iff the name does not start
with a dot). -/
def AsmState.grabLabel (st : AsmState) (name : String) : AsmState × Nat :=
  match st.labelsByName.lookup name with
  | some id => (st, id)
  | none =>
    let id := st.store.length
    -- `public := name[0] != '.'` (the source asserts the name is non-empty)
    let item := { defaultAsmItem with
      aname := name, isPub := name.data.headD '.' ≠ '.', fixed := true }
    ({ st with store := st.store ++ [item], labelsByName := st.labelsByName ++ [(name, id)] }, id)

/-- The `EmitLabel` method. -/
def AsmState.emitLabel (st : AsmState) (name : String) : AsmState :=
  let p := st.grabLabel name
  let st := p.1.put p.2 { p.1.get p.2 with seen := true }
  st.link p.2

/-- The `generate` method: encode and mark fixed. -/
def generateItem (item : AsmItem) : AsmItem :=
  let bytes := opEncode item.meta item.imm0 item.imm1 item.imm2
  { item with
    bytes := bytes
    maxLength := bytes.length
    fixed := true
    fixup := none
    fixBlockedBy := none }

/-- The `applyFixup` method: write `s2u s` through the fixup slot. -/
def applyFixupItem (item : AsmItem) (s : Int) : AsmItem :=
  match item.fixup with
  | some 0 => { item with imm0 := s2u s }
  | some 1 => { item with imm1 := s2u s }
  | some 2 => { item with imm2 := s2u s }
  | _ => item

/-- Numeric value of one `EmitOp` argument (label slots are overwritten by
the placeholder before use). -/
def slotValue (m : ImmMeta) : AsmImm → Nat
  | .omitted => m.default
  | .sintArg i => s2u i
  | .uintArg n => n
  | .labelRef _ => 0

/-- The `EmitOp` method.  A label argument marks its slot as the (unique)
fixup; the slot receives the placeholder `^highbit` and `MaxLength` is the
length of encoding with that placeholder; otherwise the op is generated
immediately. -/
def AsmState.emitOp (st : AsmState) (meta : OpMeta) (a0 a1 a2 : AsmImm) : AsmState :=
  let v0 := slotValue meta.imm0 a0
  let v1 := slotValue meta.imm1 a1
  let v2 := slotValue meta.imm2 a2
  let fix : Option (Nat × Nat) :=
    match a0, a1, a2 with
    | .labelRef l, _, _ => some (0, l)
    | _, .labelRef l, _ => some (1, l)
    | _, _, .labelRef l => some (2, l)
    | _, _, _ => none
  let id := st.store.length
  let base := { defaultAsmItem with
    isOp := true
    meta := meta
    aname := meta.name
    maxLength := 26
    imm0 := v0
    imm1 := v1
    imm2 := v2
    fixed := false }
  match fix with
  | none =>
    let st := { st with store := st.store ++ [base] }
    let st := st.link id
    st.put id (generateItem (st.get id))
  | some sl =>
    let ph : Nat := 0x7FFFFFFFFFFFFFFF
    let item := match sl.1 with
      | 0 => { base with imm0 := ph, fixup := some 0, fixBlockedBy := some sl.2 }
      | 1 => { base with imm1 := ph, fixup := some 1, fixBlockedBy := some sl.2 }
      | _ => { base with imm2 := ph, fixup := some 2, fixBlockedBy := some sl.2 }
    let st := { st with store := st.store ++ [item] }
    let st := st.link id
    let lab := st.get sl.2
    let st := st.put sl.2 { lab with blocking := lab.blocking ++ [id] }
    let it := st.get id
    st.put id { it with maxLength := (opEncode it.meta it.imm0 it.imm1 it.imm2).length }

/-- The `distance` method: byte distance from the end of item `p` to the
start of item `q`, summing concrete lengths for fixed items and
`MaxLength` otherwise; positions past the end of the list contribute the
`.$bogus$` sentinel (fixed, zero bytes).  Returns the signed distance and
whether it is exact. -/
def AsmState.distance (st : AsmState) (pId qId : Nat) : Int × Bool :=
  let p := st.get pId
  let q := st.get qId
  let i := p.index.getD 0 + 1
  let j := q.index.getD 0
  let contrib := fun (acc : Nat × Bool) (k : Nat) =>
    let item := st.get (st.list.getD k st.store.length)
    if item.fixed then (acc.1 + item.bytes.length, acc.2)
    else (acc.1 + item.maxLength, false)
  let ks := if i > j then List.range' j (i - j) else List.range' i (j - i)
  let te := ks.foldl contrib (0, true)
  (if i > j then -(te.1 : Int) else (te.1 : Int), te.2)

/-- The `trySetXP` method. -/
def AsmState.trySetXP (st : AsmState) (id : Nat) : AsmState × Bool :=
  let item := st.get id
  if item.knownXP then (st, false)
  else if item.index = some 0 then
    (st.put id { item with xp := 0, knownXP := true }, true)
  else
    let prevId := st.list.getD (item.index.getD 0 - 1) st.store.length
    let prev := st.get prevId
    if prev.knownXP ∧ prev.fixed then
      (st.put id { item with xp := prev.xp + prev.bytes.length, knownXP := true }, true)
    else
      (st.put prevId { prev with blocking := prev.blocking ++ [id] }, false)

/-- The `tryFix` method.  Note that the fixup value written by
`applyFixup` persists in the item even when no progress is reported. -/
def AsmState.tryFix (st : AsmState) (id : Nat) : AsmState × Bool :=
  let item := st.get id
  if item.fixed then (st, false)
  else
    let lblId := item.fixBlockedBy.getD st.store.length
    let lbl := st.get lblId
    if lbl.seen = false then (st, false)
    else
      let ne := st.distance id lblId
      let item := applyFixupItem item ne.1
      if ne.2 then (st.put id (generateItem item), true)
      else
        let ml := (opEncode item.meta item.imm0 item.imm1 item.imm2).length
        if ml < item.maxLength then (st.put id { item with maxLength := ml }, true)
        else (st.put id item, false)

/-- The `processItem` method: attempt XP assignment and fixing, then move
the item's blocking list onto the queue. -/
def AsmState.processItem (st : AsmState) (id : Nat) : AsmState × Bool :=
  let item := st.get id
  let sp :=
    if ¬ item.knownXP ∨ ¬ item.fixed then
      let r0 := st.trySetXP id
      let r1 := r0.1.tryFix id
      (r1.1, r0.2 || r1.2)
    else (st, false)
  let st := sp.1
  let item := st.get id
  let st :=
    if item.blocking ≠ [] then
      { st.put id { item with blocking := [] } with queue := st.queue ++ item.blocking }
    else st
  (st, sp.2)

/-- The `process` method: drain the queue, reporting progress.  The fuel
bounds the number of dequeues; `none` models non-termination. -/
def AsmState.processQueue : Nat → AsmState → Bool → Option (AsmState × Bool)
  | 0, st, prog => if st.queue = [] then some (st, prog) else none
  | fuel + 1, st, prog =>
    match st.queue with
    | [] => some (st, prog)
    | id :: rest =>
      let st := { st with queue := rest }
      let r := st.processItem id
      AsmState.processQueue fuel r.1 (prog || r.2)

/-- One of the two relaxation loops of `Fix`: refill the queue from the
list and process until no progress. -/
def fixLoop (qfuel : Nat) : Nat → AsmState → Option AsmState
  | 0, _ => none
  | fuel + 1, st =>
    let st := { st with queue := st.queue ++ st.list }
    match AsmState.processQueue qfuel st false with
    | none => none
    | some (st, true) => fixLoop qfuel fuel st
    | some (st, false) => some st

/-- One iteration of the jiggle pass of `Fix`, including the
negative-offset asymmetry correction (`dist+1` kept only if it changes the
encoded length). -/
def jiggleItem (st : AsmState) (id : Nat) : AsmState :=
  let item := st.get id
  if item.fixed then st
  else
    let lblId := item.fixBlockedBy.getD st.store.length
    let n := (st.distance id lblId).1
    let item1 := applyFixupItem item n
    let lbl := st.get lblId
    let item2 :=
      if item.index.getD 0 > lbl.index.getD 0 then
        let first := opEncode item1.meta item1.imm0 item1.imm1 item1.imm2
        let item1' := applyFixupItem item1 (n + 1)
        let second := opEncode item1'.meta item1'.imm0 item1'.imm1 item1'.imm2
        if second.length = first.length then applyFixupItem item1' n else item1'
      else item1
    st.put id (generateItem item2)

/-- The `Fix` method: relaxation loop, jiggle pass, final relaxation. -/
def AsmState.fix (qfuel lfuel : Nat) (st : AsmState) : Option AsmState :=
  match fixLoop qfuel lfuel st with
  | none => none
  | some st =>
    let st := st.list.foldl jiggleItem st
    fixLoop qfuel lfuel st

/-- The post-condition assertion of `Fix`: every item placed and fixed. -/
def AsmState.allFixed (st : AsmState) : Bool :=
  st.list.all (fun id => (st.get id).knownXP ∧ (st.get id).fixed)

/-- The `Finish` method: fix, then concatenate op bytes and collect
labels.  The second component reports the `Fix` post-condition. -/
def AsmState.finish (qfuel lfuel : Nat) (st : AsmState) : Option (Program × Bool) :=
  match st.fix qfuel lfuel with
  | none => none
  | some st =>
    let bytes := st.list.foldl
      (fun acc id => let it := st.get id; if it.isOp then acc ++ it.bytes else acc) []
    let labels := st.list.foldl
      (fun acc id =>
        let it := st.get id
        if it.isOp then acc else acc ++ [Label.mk it.xp it.isPub it.aname]) []
    some (⟨bytes, st.literals, [], st.captures, labels⟩, st.allFixed)

/-- Scenario 1 of the spec: the 21-byte `.*ana$` program, with literal 0 =
"ana" and one capture (`sampleProgram1` in the test sources). -/
def sampleProgram1 : Program :=
  ⟨[0xac, 0x40, 0x00, 0x14, 0x07, 0x64, 0x00, 0x14, 0x07, 0x40, 0xa6, 0x00, 0x40,
    0x90, 0x40, 0xf3, 0xae, 0x40, 0x00, 0xfe, 0x00],
   [[97, 110, 97]], [], [⟨"", false⟩], []⟩

/-- A two-byte program consisting of a single RET instruction. -/
def retProgram : Program := ⟨[0x96, 0x00], [], [], [], []⟩

/-- The decoded RET instruction of `retProgram`. -/
def retOp : Op := ⟨0, 0, 0, 0, 0x0b, 2⟩

/-- Running `retProgram` with a call frame (saved return address 42) on
top of the control stack. -/
def retOnCall : Execution := ⟨retProgram, [], 0, 0, [], [⟨false, 0, 42, []⟩], .running⟩

/-- Running `retProgram` with a choice frame on top of the control stack. -/
def retOnChoice : Execution := ⟨retProgram, [], 0, 0, [], [⟨true, 5, 42, []⟩], .running⟩

/-- Running `retProgram` with an empty control stack. -/
def retOnEmpty : Execution := ⟨retProgram, [], 0, 0, [], [], .running⟩

/-- A three-byte program consisting of `JMP -4` (offset underflows XP). -/
def jmpBackProgram : Program := ⟨[0x90, 0x40, 0xfc], [], [], [], []⟩

/-- Fresh execution of `jmpBackProgram`. -/
def jmpBackExec : Execution := jmpBackProgram.exec []

/-- The decoded `JMP -4` instruction of `jmpBackProgram`. -/
def jmpBackOp : Op := ⟨0, s2u (-4), 0, 0, 0x08, 3⟩

/-- A three-byte program consisting of `JMP +100` (target far past the
end of the bytecode). -/
def jmpFwdProgram : Program := ⟨[0x90, 0x40, 0x64], [], [], [], []⟩

/-- Fresh execution of `jmpFwdProgram`. -/
def jmpFwdExec : Execution := jmpFwdProgram.exec []

/-- The state after the `JMP +100` step: XP = 103 in a 3-byte program. -/
def jmpFwdMid : Execution := { jmpFwdExec with xp := 103 }

/-- The metadata of ANYB's first immediate slot: optional count with
packed default 1. -/
def anybImm0 : ImmMeta := optionalImm .count 1

/-- The metadata of a required signed-integer slot. -/
def sintReq : ImmMeta := requiredImm .sint

/-- Little-endian truncation of a 64-bit word to its first `w` bytes. -/
def leBytes (v w : Nat) : List Nat := (List.range w).map (byteAt v)

/-- The claim's meaning of a width `w` preserving a value: for unsigned
slots the value fits in `w` bytes; for signed slots the sign-extension of
the low `w` bytes recovers the value, i.e. the value is small positive or
large negative and the kept top bit matches the sign. -/
def widthPreserves (sgn : Bool) (w v : Nat) : Prop :=
  if sgn then v < 2 ^ (8 * w - 1) ∨ 2 ^ 64 - 2 ^ (8 * w - 1) ≤ v
  else v < 2 ^ (8 * w)

/-- The evolution of the `pending` array of `Program.Match` over KS,
projected out of the harvesting loop. -/
def pendingFold (ks : List Assignment) (p : List Nat) : List Nat :=
  ks.foldl (fun q a => if a.isEnd then q.set a.index 0 else q.set a.index a.dp) p

/-- Whether for a given capture index no `is_end = false` assignment
follows the last `is_end = true` assignment in KS (vacuously true for an
index never assigned). -/
def lastIsClosed (ks : List Assignment) (idx : Nat) : Bool :=
  ks.foldl (fun b a => if a.index = idx then a.isEnd else b) true

/-- The assembler state for Scenario 3: `L0: JMP L0`. -/
def selfJmpState : AsmState :=
  let st := AsmState.empty.emitLabel "L0"
  let p := st.grabLabel "L0"
  p.1.emitOp (opCodeMeta 8) (.labelRef p.2) .omitted .omitted

/-- The width cascade of `ImmMeta.Encode`, as a standalone function of the
slot signedness and the value (identical to the cascade inside
`ImmMeta.encode`). -/
def encW (sgn : Bool) (v : Nat) : Nat :=
  let neg : Bool := v / 2 ^ 63 % 2 = 1
  let x : Nat := if sgn ∧ neg then 0xff else 0x00
  let f : Nat → Bool := fun b =>
    if sgn then decide (b / 128 % 2 = (if neg then 1 else 0)) else true
  if byteAt v 7 = x ∧ byteAt v 6 = x ∧ byteAt v 5 = x ∧ byteAt v 4 = x ∧ f (byteAt v 3) then
    if byteAt v 3 = x ∧ byteAt v 2 = x ∧ f (byteAt v 1) then
      if byteAt v 1 = x ∧ f (byteAt v 0) then 1 else 2
    else 4
  else 8

/-- An execution whose control stack holds (top first) a call frame, a
choice frame and another call frame, used to exercise `fail`. -/
def failDemo : Execution :=
  ⟨retProgram, [], 9, 9, [⟨1, 0, false⟩],
   [⟨false, 0, 7, []⟩, ⟨true, 2, 5, [⟨0, 0, false⟩]⟩, ⟨false, 0, 3, []⟩], .running⟩

/-- A capture stack whose last assignment for index 1 is a closing one. -/
def demoKS : List Assignment := [⟨4, 1, false⟩, ⟨6, 1, true⟩]

end Peggy

namespace ByteSet

/-- C2: the claim states that the `ranges` constructor stores a sorted
list with `lo ≤ hi` entries and with no two overlapping AND no two
adjacent intervals (`previous.hi + 1 < next.lo`), coalescing both kinds.
The code keeps the two adjacent input ranges `[0,1]` and `[2,3]` separate
(the merge test `lastHi >= r.Lo` only catches overlap), contradicting the
comment inside `coalesceRanges` that announces merging of adjacent
entries; the stored list violates the claimed adjacency-freeness. -/
theorem c2_adjacent_not_coalesced :
    makeRange [⟨0, 1⟩, ⟨2, 3⟩] = [⟨0, 1⟩, ⟨2, 3⟩]
  ∧ separated (makeRange [⟨0, 1⟩, ⟨2, 3⟩]) = false := by
  decide

end ByteSet

namespace Peggy

/-- C1: the claim states that RET pops a call frame and restores its
return address, errors with `ChoiceFailFrame` on a choice frame, and
errors with `EmptyStack` on an empty stack.  Evaluating `Execution.Step`
shows the code's behaviour is inverted on the first two cases: a call
frame on top yields the `ChoiceFailFrame` runtime error (with `R = Error`
and KS cleared) and a choice frame on top is popped with `XP` set to its
saved pointer; only the empty-stack case matches the claim. -/
theorem c1_ret_inverted :
    retOnCall.step
      = .err { retOnCall with xp := 2, cs := [], r := .error, ks := [] }
          (.rt ⟨.choiceFailFrame, 0, 0, retOp⟩)
  ∧ retOnChoice.step = .ok { retOnChoice with xp := 42, cs := [] }
  ∧ retOnEmpty.step
      = .err { retOnEmpty with xp := 2, r := .error, ks := [] }
          (.rt ⟨.emptyStack, 0, 0, retOp⟩) := by
  refine ⟨?_, ?_, ?_⟩ <;> decide

/-- C5: the claim's round-trip law fails on `ImmMeta.Decode`, which
initialises the value with the slot's default and then ORs the encoded
bytes into it.  For ANYB's optional count slot (packed default 1), the
value 2 encodes to the single byte `02` but decodes back to `1 ||| 2 = 3`
with no error; decoding the whole two-byte instruction `44 02`
(`ANYB 2`) accordingly yields imm0 = 3. -/
theorem c5_decode_ors_default :
    anybImm0.encode 2 = [2]
  ∧ anybImm0.decode [2] = (3, none)
  ∧ (anybImm0.decode (anybImm0.encode 2)).1 ≠ 2
  ∧ opDecode [0x44, 0x02] 0 = .ok ⟨0, 3, 0, 0, 0x04, 2⟩ := by
  refine ⟨?_, ?_, ?_, ?_⟩ <;> decide

/-- C3 counterexample: on the program `JMP -4`, the offset addition
underflows XP, and `Execution.Step` panics (the Go `addOffset` helper
panics by its own documentation) instead of returning a
`CodeOffsetOutOfRange` runtime error with `R = Error` as the claim
states — no such runtime-error kind exists in the code. -/
theorem c3_counterexample :
    opDecode jmpBackProgram.bytes 0 = .ok jmpBackOp
  ∧ addOffset (0 + jmpBackOp.len) (u2s jmpBackOp.imm0) = none
  ∧ jmpBackExec.step = .panicked "code offset out of range" := by
  refine ⟨?_, ?_, ?_⟩ <;> decide

/-- C4 counterexample: on the program `JMP +100`, the computed jump
target 103 is strictly greater than the 3-byte program, yet the execution
does not surface a decode error: the following `Step` returns without
error and terminates with `R = Success` (normal termination), because
`Op.Decode` reports end-of-stream for any XP at or past the end. -/
theorem c4_counterexample :
    jmpFwdExec.step = .ok jmpFwdMid
  ∧ jmpFwdMid.xp > jmpFwdProgram.bytes.length
  ∧ jmpFwdMid.step = .ok { jmpFwdMid with r := .success } := by
  refine ⟨?_, ?_, ?_⟩ <;> decide

/-- C8: running the 21-byte Scenario-1 program via `Match` succeeds with
capture 0 = (0,3) on "ana", succeeds with capture 0 = (0,6) on "banana",
and fails on "anax" and "apple". -/
theorem c8_scenario1 :
    sampleProgram1.matchF 1000 [97, 110, 97]
      = some ⟨true, [⟨true, ⟨0, 3⟩, [⟨0, 3⟩]⟩]⟩
  ∧ sampleProgram1.matchF 1000 [98, 97, 110, 97, 110, 97]
      = some ⟨true, [⟨true, ⟨0, 6⟩, [⟨0, 6⟩]⟩]⟩
  ∧ sampleProgram1.matchF 1000 [97, 110, 97, 120]
      = some ⟨false, [⟨false, ⟨0, 0⟩, []⟩]⟩
  ∧ sampleProgram1.matchF 1000 [97, 112, 112, 108, 101]
      = some ⟨false, [⟨false, ⟨0, 0⟩, []⟩]⟩ := by
  refine ⟨?_, ?_, ?_, ?_⟩ <;> decide

/-- C9: assembling `L0: JMP L0` produces exactly the three bytes
`90 40 fd` (JMP with imm0 = -3 as a signed 8-bit immediate), records the
public label L0 at offset 0, and leaves every assembler item with
`known_xp` and `fixed` true (the second component of `finish`). -/
theorem c9_self_jmp :
    (selfJmpState.finish 100 20).map (fun pb => (pb.1.bytes, pb.1.labels, pb.2))
      = some ([0x90, 0x40, 0xfd], [⟨0, true, "L0"⟩], true)
  ∧ (selfJmpState.fix 100 20).map
      (fun st => st.list.map (fun id => (st.get id).imm0))
      = some [0, s2u (-3)] := by
  refine ⟨?_, ?_⟩ <;> decide

end Peggy

namespace Peggy

/-- Helper: the pop-until-choice loop finds nothing when every frame is a
call frame. -/
theorem failCS_all_call (l : List Frame) (h : ∀ f ∈ l, f.isChoice = false) :
    failCS l = none := by
  induction l with
  | nil => rfl
  | cons a tl ih =>
    unfold failCS
    simp [h a (by simp)]
    exact ih (fun f hf => h f (by simp [hf]))

/-- Helper: the pop-until-choice loop discards the leading call frames and
returns the first choice frame with the remaining stack. -/
theorem failCS_found (post : List Frame) (fr : Frame) (rest : List Frame)
    (hpost : ∀ f ∈ post, f.isChoice = false) (hfr : fr.isChoice = true) :
    failCS (post ++ fr :: rest) = some (fr, rest) := by
  induction post with
  | nil => unfold failCS; simp [hfr]
  | cons a tl ih =>
    unfold failCS
    simp [hpost a (by simp)]
    exact ih (fun f hf => hpost f (by simp [hf]))

/-- C7: `fail()` pops frames one at a time, silently discarding call
frames, until a choice frame or stack exhaustion.  A found choice frame
restores `DP`, sets `XP` to the frame's alternative pointer and restores
the snapshotted capture stack (the exact list of assignments present when
the frame was pushed); an exhausted stack sets `R = Failure` and clears
KS.  Neither outcome produces an error: `fail` is a total state
transformation. -/
theorem c7_fail_backtracks (x : Execution) :
    ((∀ f ∈ x.cs, f.isChoice = false) →
      x.fail = { x with r := .failure, ks := [], cs := [] })
  ∧ (∀ post fr rest, x.cs = post ++ fr :: rest →
      (∀ f ∈ post, f.isChoice = false) → fr.isChoice = true →
      x.fail = { x with dp := fr.dp, xp := fr.xp, ks := fr.ks, cs := rest }) := by
  constructor
  · intro h
    unfold Execution.fail
    rw [failCS_all_call x.cs h]
  · intro post fr rest hcs hpost hfr
    unfold Execution.fail
    rw [hcs, failCS_found post fr rest hpost hfr]

/-- Witness for C7 at a concrete stack: one call frame above a choice
frame above another call frame. -/
theorem c7_fail_backtracks_witness :
    failDemo.cs
      = [⟨false, 0, 7, []⟩] ++ (⟨true, 2, 5, [⟨0, 0, false⟩]⟩ : Frame) :: [⟨false, 0, 3, []⟩]
  ∧ (∀ f ∈ ([⟨false, 0, 7, []⟩] : List Frame), f.isChoice = false)
  ∧ failDemo.fail
      = { failDemo with dp := 2, xp := 5, ks := [⟨0, 0, false⟩], cs := [⟨false, 0, 3, []⟩] } :=
  ⟨by decide, by decide,
    (c7_fail_backtracks failDemo).2 [⟨false, 0, 7, []⟩] ⟨true, 2, 5, [⟨0, 0, false⟩]⟩
      [⟨false, 0, 3, []⟩] (by decide) (by decide) (by decide)⟩

/-- C3 (amended): whenever `Step` reaches the offset addition of an
instruction — unconditionally for CHOICE, JMP and CALL; after popping a
choice frame for COMMIT, PCOMMIT and BCOMMIT; on the test-failure path
for TANYB, TSAMEB, TLITB and TMATCHB — and the addition overflows, `Step`
panics with message "code offset out of range" (propagating the panic of
`addOffset`): no `CodeOffsetOutOfRange` runtime error is returned, `R` is
not transitioned to `Error`, and `KS` is not cleared. -/
theorem c3_overflow_panics (x : Execution) (op : Op)
    (hr : x.r = .running)
    (hd : opDecode x.prog.bytes x.xp = .ok op)
    (ho : addOffset (x.xp + op.len) (u2s op.imm0) = none) :
    ((op.code = 0x01 ∨ op.code = 0x08 ∨ op.code = 0x0a) →
      x.step = .panicked "code offset out of range")
  ∧ ((op.code = 0x02 ∨ op.code = 0x10 ∨ op.code = 0x11) →
      ∀ fr rest, x.cs = fr :: rest → fr.isChoice = true →
      x.step = .panicked "code offset out of range")
  ∧ (op.code = 0x0c → x.availableBytes < op.imm1 →
      x.step = .panicked "code offset out of range")
  ∧ (op.code = 0x0d → x.matchN (.exactly (op.imm1 % 256)) op.imm2 = false →
      x.step = .panicked "code offset out of range")
  ∧ (op.code = 0x0e → op.imm1 < x.prog.literals.length →
      (x.matchLit (x.prog.literals.getD op.imm1 [])).2 = false →
      x.step = .panicked "code offset out of range")
  ∧ (op.code = 0x0f → op.imm1 < x.prog.byteSets.length →
      x.matchN (x.prog.byteSets.getD op.imm1 .noneSet) op.imm2 = false →
      x.step = .panicked "code offset out of range") := by
  obtain ⟨oxp, i0, i1, i2, c, olen⟩ := op
  simp only at hd ho ⊢
  refine ⟨?_, ?_, ?_, ?_, ?_, ?_⟩
  · intro hc
    rcases hc with h | h | h <;> subst h <;>
      (unfold Execution.step; rw [hr, hd]; simp [ho])
  · intro hc fr rest hcs hfr
    rcases hc with h | h | h <;> subst h <;>
      (unfold Execution.step; rw [hr, hd]; simp [hcs, hfr, ho])
  · intro hc hb
    subst hc
    unfold Execution.step
    rw [hr, hd]
    simp only [Execution.availableBytes] at hb
    simp [Execution.availableBytes, Nat.not_le_of_lt hb, ho]
  · intro hc hm
    subst hc
    unfold Execution.step
    rw [hr, hd]
    simp [ho]
    exact hm
  · intro hc hi hm
    subst hc
    unfold Execution.step
    rw [hr, hd]
    simp [Nat.not_le_of_lt hi, ho]
    simpa using hm
  · intro hc hi hm
    subst hc
    unfold Execution.step
    rw [hr, hd]
    simp [Nat.not_le_of_lt hi, ho]
    simpa using hm

/-- Witness for C3 at the concrete `JMP -4` program. -/
theorem c3_overflow_panics_witness :
    jmpBackExec.r = .running
  ∧ opDecode jmpBackExec.prog.bytes jmpBackExec.xp = .ok jmpBackOp
  ∧ addOffset (jmpBackExec.xp + jmpBackOp.len) (u2s jmpBackOp.imm0) = none
  ∧ jmpBackExec.step = .panicked "code offset out of range" :=
  ⟨by decide, by decide, by decide,
    (c3_overflow_panics jmpBackExec jmpBackOp (by decide) (by decide) (by decide)).1
      (Or.inr (Or.inl (by decide)))⟩

/-- C4 (amended): the VM does not pre-verify jump targets; a computed
target at or past the end of the bytecode makes the following `Step`
terminate normally with `R = Success` (end-of-stream), not with a decode
error, while a target inside the stream at which decoding fails makes the
following `Step` set `R = Error`, clear KS and return that decode
error. -/
theorem c4_decode_boundary (x : Execution) :
    (x.r = .running → x.xp ≥ x.prog.bytes.length →
      x.step = .ok { x with r := .success })
  ∧ (∀ e exp, x.r = .running → opDecode x.prog.bytes x.xp = .fail e exp →
      x.step = .err { x with r := .error, ks := [] } (.dis e exp)) := by
  constructor
  · intro hr hx
    have hdec : opDecode x.prog.bytes x.xp = .eof := by
      unfold opDecode
      rw [if_pos hx]
    unfold Execution.step
    rw [hr, hdec]
    simp
  · intro e exp hr hd
    unfold Execution.step
    rw [hr, hd]
    simp

/-- Witness for C4 at the state reached after `JMP +100` in a 3-byte
program: XP = 103 strictly exceeds the program length and the next step
succeeds. -/
theorem c4_decode_boundary_witness :
    jmpFwdMid.r = .running
  ∧ jmpFwdMid.xp ≥ jmpFwdMid.prog.bytes.length
  ∧ jmpFwdMid.step = .ok { jmpFwdMid with r := .success } :=
  ⟨by decide, by decide, (c4_decode_boundary jmpFwdMid).1 (by decide) (by decide)⟩

end Peggy

namespace Peggy

/-- Helper: writing 0 at an index makes that position read back 0. -/
theorem getD_set_self_zero (l : List Nat) (i : Nat) : (l.set i 0).getD i 0 = 0 := by
  induction l generalizing i with
  | nil => simp
  | cons a tl ih =>
    cases i with
    | zero => simp
    | succ n => simpa using ih n

/-- Helper: writing at one index leaves reads at another index unchanged. -/
theorem getD_set_ne (l : List Nat) (i j v : Nat) (h : i ≠ j) :
    (l.set i v).getD j 0 = l.getD j 0 := by
  induction l generalizing i j with
  | nil => simp
  | cons a tl ih =>
    cases i with
    | zero =>
      cases j with
      | zero => exact absurd rfl h
      | succ m => simp
    | succ n =>
      cases j with
      | zero => simp
      | succ m =>
        simp only [List.set, List.getD_cons_succ]
        exact ih n m (by omega)

/-- Helper: every position of an all-zero list reads 0. -/
theorem getD_replicate_zero (n i : Nat) : (List.replicate n 0).getD i 0 = 0 := by
  induction n generalizing i with
  | zero => simp
  | succ k ih =>
    cases i with
    | zero => simp [List.replicate]
    | succ j =>
      rw [List.replicate, List.getD_cons_succ]
      exact ih j

/-- Helper: the harvesting loop over an appended assignment is the loop
over the prefix followed by one step. -/
theorem harvestAcc_append (st : List Capture × List Nat) (ks : List Assignment) (a : Assignment) :
    harvestAcc st (ks ++ [a]) = (harvestAcc st ks).bind (fun s => harvestStep s.1 s.2 a) := by
  induction ks generalizing st with
  | nil =>
    simp [harvestAcc]
  | cons b tl ih =>
    simp only [harvestAcc, List.cons_append, List.foldlM_cons] at *
    cases h : harvestStep st.1 st.2 b <;> simp [h, ih]

/-- Helper: on a capture stack whose indices are all in range, the
harvesting loop never panics, preserves the number of captures, and its
pending array evolves by `pendingFold`. -/
theorem harvestAcc_total (ks : List Assignment) (caps : List Capture) (pending : List Nat)
    (hwf : ∀ a ∈ ks, a.index < caps.length) :
    ∃ caps', harvestAcc (caps, pending) ks = some (caps', pendingFold ks pending)
      ∧ caps'.length = caps.length := by
  induction ks generalizing caps pending with
  | nil => exact ⟨caps, rfl, rfl⟩
  | cons a tl ih =>
    have ha : a.index < caps.length := hwf a (by simp)
    have hwf' : ∀ b ∈ tl, b.index < caps.length := fun b hb => hwf b (by simp [hb])
    simp only [harvestAcc, List.foldlM_cons, pendingFold, List.foldl_cons] at *
    cases hE : a.isEnd
    · have hstep : harvestStep caps pending a = some (caps, pending.set a.index a.dp) := by
        unfold harvestStep
        simp [Nat.not_le_of_lt ha, hE]
      rw [hstep]
      simpa [hE] using ih caps (pending.set a.index a.dp) hwf'
    · have hstep : harvestStep caps pending a
          = some (caps.set a.index ⟨true, ⟨pending.getD a.index 0, a.dp⟩,
              (caps.getD a.index emptyCapture).multi ++ [⟨pending.getD a.index 0, a.dp⟩]⟩,
              pending.set a.index 0) := by
        unfold harvestStep
        simp [Nat.not_le_of_lt ha, hE]
      rw [hstep]
      obtain ⟨caps', h1, h2⟩ := ih (caps.set a.index _) (pending.set a.index 0)
        (fun b hb => by simpa using hwf' b hb)
      refine ⟨caps', by simpa [hE] using h1, by simpa using h2⟩

/-- Helper: if, for an index, no start assignment follows the last end
assignment, then the pending slot of that index reads 0 after the fold
(given that it reads 0 initially when nothing precedes). -/
theorem pendingFold_closed_zero (ks : List Assignment) (idx : Nat) (b : Bool) (p : List Nat)
    (hfold : ks.foldl (fun c a => if a.index = idx then a.isEnd else c) b = true)
    (hb : b = true → p.getD idx 0 = 0) :
    (pendingFold ks p).getD idx 0 = 0 := by
  induction ks generalizing b p with
  | nil => exact hb hfold
  | cons a tl ih =>
    simp only [pendingFold, List.foldl_cons] at hfold ⊢
    refine ih _ _ hfold ?_
    intro hb'
    by_cases hai : a.index = idx
    · rw [if_pos hai] at hb'
      rw [hb', if_pos rfl, hai]
      exact getD_set_self_zero p idx
    · rw [if_neg hai] at hb'
      have hgoal : ∀ v, (p.set a.index v).getD idx 0 = p.getD idx 0 :=
        fun v => getD_set_ne p a.index idx v hai
      cases hE : a.isEnd
      · rw [if_neg (by simp), hgoal]
        exact hb hb'
      · rw [if_pos rfl, hgoal]
        exact hb hb'

/-- C10: in `Program.Match`'s capture harvesting, the pending start
position of every capture index is initially 0 (zero-initialised array)
and is reset to 0 after each pair is closed; an `is_end = true`
assignment always produces a `(start, end)` pair — appended to that
index's `multi` list and recorded as `solo` — and when no
`is_end = false` assignment for the index follows the last closed pair,
the produced pair's start is 0. -/
theorem c10_harvest_pending (n : Nat) (ks : List Assignment) (idx dp : Nat)
    (hn : idx < n) (hwf : ∀ a ∈ ks, a.index < n) :
    ∃ caps pending,
      harvestAcc (harvestInit n) ks = some (caps, pending)
      ∧ (harvestInit n).2.getD idx 0 = 0
      ∧ harvestAcc (harvestInit n) (ks ++ [⟨dp, idx, true⟩])
          = some (caps.set idx ⟨true, ⟨pending.getD idx 0, dp⟩,
                    (caps.getD idx emptyCapture).multi ++ [⟨pending.getD idx 0, dp⟩]⟩,
                  pending.set idx 0)
      ∧ (lastIsClosed ks idx = true → pending.getD idx 0 = 0) := by
  have hwf' : ∀ a ∈ ks, a.index < (List.replicate n emptyCapture).length := by
    simpa using hwf
  obtain ⟨caps', htot, hlen⟩ :=
    harvestAcc_total ks (List.replicate n emptyCapture) (List.replicate n 0) hwf'
  have hidx : idx < caps'.length := by
    rw [hlen, List.length_replicate]
    exact hn
  refine ⟨caps', pendingFold ks (List.replicate n 0), htot, ?_, ?_, ?_⟩
  · exact getD_replicate_zero n idx
  · rw [show harvestInit n = (List.replicate n emptyCapture, List.replicate n 0) from rfl,
      harvestAcc_append, htot]
    simp [harvestStep, Nat.not_le_of_lt hidx]
  · intro hclosed
    exact pendingFold_closed_zero ks idx true (List.replicate n 0) hclosed
      (fun _ => getD_replicate_zero n idx)

/-- Witness for C10 with two captures and a stack whose last assignment
for index 1 closes a pair. -/
theorem c10_harvest_pending_witness :
    (1 < 2 ∧ ∀ a ∈ demoKS, a.index < 2)
  ∧ (∃ caps pending,
      harvestAcc (harvestInit 2) demoKS = some (caps, pending)
      ∧ (harvestInit 2).2.getD 1 0 = 0
      ∧ harvestAcc (harvestInit 2) (demoKS ++ [⟨9, 1, true⟩])
          = some (caps.set 1 ⟨true, ⟨pending.getD 1 0, 9⟩,
                    (caps.getD 1 emptyCapture).multi ++ [⟨pending.getD 1 0, 9⟩]⟩,
                  pending.set 1 0)
      ∧ (lastIsClosed demoKS 1 = true → pending.getD 1 0 = 0)) :=
  ⟨⟨by decide, by decide⟩, c10_harvest_pending 2 demoKS 1 9 (by decide) (by decide)⟩

end Peggy

namespace Peggy

/-- Helper: for a present value, `ImmMeta.Encode` emits exactly the first
`encW` little-endian bytes of the value. -/
theorem encode_eq_leBytes (m : ImmMeta) (v : Nat) (hp : m.isPresent v = true) :
    m.encode v = leBytes v (encW m.type.signed v) := by
  unfold ImmMeta.encode encW leBytes
  rw [hp]
  rfl

/-- Helper: for unsigned slots the width cascade picks the smallest width
in {1,2,4,8} whose zero-extension preserves the value. -/
theorem encW_spec_unsigned (v : Nat) (hv : v < 2 ^ 64) :
    (encW false v = 1 ∨ encW false v = 2 ∨ encW false v = 4 ∨ encW false v = 8)
  ∧ widthPreserves false (encW false v) v
  ∧ (∀ u, (u = 1 ∨ u = 2 ∨ u = 4 ∨ u = 8) → u < encW false v →
      ¬ widthPreserves false u v) := by
  unfold encW widthPreserves byteAt
  norm_num
  split_ifs <;> omega

/-- Helper: for signed slots the width cascade picks the smallest width
in {1,2,4,8} whose sign-extension preserves the value, i.e. the kept top
bit matches the value's sign. -/
theorem encW_spec_signed (v : Nat) (hv : v < 2 ^ 64) :
    (encW true v = 1 ∨ encW true v = 2 ∨ encW true v = 4 ∨ encW true v = 8)
  ∧ widthPreserves true (encW true v) v
  ∧ (∀ u, (u = 1 ∨ u = 2 ∨ u = 4 ∨ u = 8) → u < encW true v →
      ¬ widthPreserves true u v) := by
  unfold encW widthPreserves byteAt
  norm_num
  split_ifs <;> omega

/-- C6: for every immediate slot and 64-bit value, the encoder selects
the smallest width in {0,1,2,4,8} bytes preserving the value — width 0
exactly for a slot whose value is not present (an optional slot at its
default, or an absent slot), and otherwise the smallest of {1,2,4,8}
whose zero-extension (unsigned) or sign-extension with matching top bit
(signed) recovers the value, the emitted bytes being the little-endian
truncation; in particular for a signed slot, 0x7F encodes as `7f`, 0x80
as `80 00`, -1 as `ff`, and 0x100 as `00 01`. -/
theorem c6_encoder_minimal (m : ImmMeta) (v : Nat) (hv : v < 2 ^ 64) :
    (m.isPresent v = false → m.encode v = [])
  ∧ (m.isPresent v = true →
      ∃ w, (w = 1 ∨ w = 2 ∨ w = 4 ∨ w = 8)
        ∧ m.encode v = leBytes v w
        ∧ widthPreserves m.type.signed w v
        ∧ (∀ u, (u = 1 ∨ u = 2 ∨ u = 4 ∨ u = 8) → u < w →
            ¬ widthPreserves m.type.signed u v))
  ∧ sintReq.encode 0x7f = [0x7f]
  ∧ sintReq.encode 0x80 = [0x80, 0x00]
  ∧ sintReq.encode (2 ^ 64 - 1) = [0xff]
  ∧ sintReq.encode 0x100 = [0x00, 0x01] := by
  refine ⟨?_, ?_, by decide, by decide, by decide, by decide⟩
  · intro hp
    unfold ImmMeta.encode
    rw [hp, if_pos rfl]
  · intro hp
    have henc := encode_eq_leBytes m v hp
    cases hsgn : m.type.signed
    · obtain ⟨ha, hb, hc⟩ := encW_spec_unsigned v hv
      rw [hsgn] at henc
      exact ⟨encW false v, ha, henc, hb, hc⟩
    · obtain ⟨ha, hb, hc⟩ := encW_spec_signed v hv
      rw [hsgn] at henc
      exact ⟨encW true v, ha, henc, hb, hc⟩

/-- Witness for C6 at the signed value 0x80, whose one-byte candidate's
top bit would falsely indicate a negative value. -/
theorem c6_encoder_minimal_witness :
    (0x80 : Nat) < 2 ^ 64
  ∧ ((sintReq.isPresent 0x80 = false → sintReq.encode 0x80 = [])
      ∧ (sintReq.isPresent 0x80 = true →
          ∃ w, (w = 1 ∨ w = 2 ∨ w = 4 ∨ w = 8)
            ∧ sintReq.encode 0x80 = leBytes 0x80 w
            ∧ widthPreserves sintReq.type.signed w 0x80
            ∧ (∀ u, (u = 1 ∨ u = 2 ∨ u = 4 ∨ u = 8) → u < w →
                ¬ widthPreserves sintReq.type.signed u 0x80))
      ∧ sintReq.encode 0x7f = [0x7f]
      ∧ sintReq.encode 0x80 = [0x80, 0x00]
      ∧ sintReq.encode (2 ^ 64 - 1) = [0xff]
      ∧ sintReq.encode 0x100 = [0x00, 0x01]) :=
  ⟨by decide, c6_encoder_minimal sintReq 0x80 (by decide)⟩

end Peggy
